import Mathlib

/-!
Verification development for the megatron pipeline execution engine
(`src/megatron/pipeline.py`).

The embedding translates `pipeline.py` faithfully.  The node model
(`megatron/nodes/core.py`), the graph utilities (`megatron/utils`) and the
storage adapter (`megatron/io`) are not part of the provided sources; the
definitions that stand in for them are modelled from the specification and
carry a doc comment saying so.

Data values are numpy-like arrays (a shape plus flat integer data).
Python exceptions become an `Except` result; the mutable `output`/`has_run`
attributes of the node objects become an explicit pass state mapping node
ids to their current output and run flag.
-/

namespace Megatron

/-- A numpy-like array value: a shape together with flat integer data. -/
structure Arr where
  shape : List Nat
  data : List Int
deriving DecidableEq, Repr

def Arr.defaultA : Arr := ⟨[0], []⟩

/-- Modelled from the spec: node Role is a closed set of variants
(Input | Transformation | Metric | Trainable).  The Trainable variant is the
Keras-backed node; per the spec it *is* a Transformation (`isinstance(node,
TransformationNode)` also matches `KerasNode`). -/
inductive Role
  | input
  | transformation
  | keras
  | metric
deriving DecidableEq, Repr

def Role.isTransformation : Role → Bool
  | .transformation => true
  | .keras => true
  | _ => false

/-- Modelled from the spec: the semantics of individual transformations are
external collaborators (out of scope for the engine), so a closed set of
concrete operations stands in for them.  `scaleByState` multiplies by the
node's learned fit state, exercising the dependence of `transform` on learned
parameters. -/
inductive TOp
  | idOp
  | double
  | scaleByState
  | sumPair
deriving DecidableEq, Repr

def TOp.apply : TOp → Int → List Arr → Arr
  | .idOp, _, vs => vs.headD Arr.defaultA
  | .double, _, vs =>
      let a := vs.headD Arr.defaultA
      ⟨a.shape, a.data.map (fun x => 2 * x)⟩
  | .scaleByState, st, vs =>
      let a := vs.headD Arr.defaultA
      ⟨a.shape, a.data.map (fun x => st * x)⟩
  | .sumPair, _, vs =>
      match vs with
      | [a, b] => ⟨a.shape, (List.zip a.data b.data).map (fun q => q.1 + q.2)⟩
      | _ => Arr.defaultA

/-- Modelled from the spec: a graph vertex with identity, connectivity
(`inbound_nodes` / `outbound_nodes`, here by node id), a name possibly
flagged as auto-generated, and role-specific learned state (`fitState`,
opaque to the engine).  The pass-scoped mutable attributes `output` and
`has_run` live in `PState`, keyed by `id`, mirroring Python's shared object
identity across the pipeline's node lists. -/
structure Node where
  id : Nat
  role : Role
  name : String
  isDefaultName : Bool
  inbound : List Nat
  outbound : List Nat
  op : TOp
  fitState : Int
deriving DecidableEq, Repr

def idsOf (l : List Node) : List Nat := l.map (fun n => n.id)

/-- The mutable pass-scoped state of all nodes: `out` is each node's
`output` attribute (`none` = Python `None`), `run` is its `has_run` flag. -/
structure PState where
  out : Nat → Option Arr
  run : Nat → Bool

def PState.blank : PState := ⟨fun _ => none, fun _ => false⟩

/-- Pointwise update of a map (Python attribute assignment on the node with
the given id). -/
def upd {α : Type} (f : Nat → α) (i : Nat) (v : α) : Nat → α :=
  fun j => if j = i then v else f j

/-- Modelled from the spec (§4.2): a pass always starts by resetting every
node's `has_run` flag to false. -/
def resetRuns (s : PState) : PState := { s with run := fun _ => false }

/-- Input data: the mapping from input-node name to array (a Python dict;
keys are unique). -/
abbrev Dict := List (String × Arr)

def lookupD (d : Dict) (k : String) : Option Arr :=
  (d.find? (fun kv => kv.1 = k)).map (fun kv => kv.2)

/-- Removal of a key from a dict (Python dict keys are unique, so filtering
is removal). -/
def eraseKey (d : Dict) (k : String) : Dict := d.filter (fun kv => kv.1 ≠ k)

/-- `input_data.pop(index_field)`: returns the value and the dict without
that key. -/
def popKey (d : Dict) (k : String) : Option (Arr × Dict) :=
  (lookupD d k).map (fun v => (v, eraseKey d k))

/-- Python exceptions raised (or merely constructed) by the pipeline code. -/
inductive PyExn
  | keyError (k : String)
  | nameError (n : String)
  | valueError (msg : String)
  | indexError
  | stopIteration
deriving DecidableEq, Repr

/-- The dynamically-typed value returned by `transform`/`evaluate`: either a
plain Python list of the output arrays, or a dict keyed by name. -/
inductive PyRes
  | list (xs : List (Option Arr))
  | dict (xs : List (String × Option Arr))
deriving DecidableEq, Repr

instance {ε α : Type} [DecidableEq ε] [DecidableEq α] : DecidableEq (Except ε α) :=
  fun a b =>
    match a, b with
    | .error e, .error f =>
        if h : e = f then .isTrue (by rw [h]) else .isFalse (by simp [h])
    | .ok x, .ok y =>
        if h : x = y then .isTrue (by rw [h]) else .isFalse (by simp [h])
    | .error _, .ok _ => .isFalse (by simp)
    | .ok _, .error _ => .isFalse (by simp)

/-- The set of node objects of a graph definition, indexed by id (Python's
object references become id lookups here). -/
structure GraphEnv where
  nodes : List Node
deriving DecidableEq, Repr

def GraphEnv.find (g : GraphEnv) (i : Nat) : Option Node :=
  g.nodes.find? (fun n => n.id = i)

inductive TopErr
  | cyclic (i : Nat)
  | outOfFuel
deriving DecidableEq, Repr

structure TSState where
  order : List Node
  visiting : List Nat
  finished : List Nat
deriving DecidableEq, Repr

/-- Modelled from the spec (§4.1): `utils.pipeline.topsort` (absent from
src/) traverses backward from the output nodes along inbound edges,
visiting each node's dependencies before the node itself, deduplicating
diamonds, and failing with a cyclic-graph error when a node is revisited
while still being expanded.  Fuel bounds the recursion; with the fuel used
by `topsort` a cycle error always fires before fuel runs out. -/
def visitIds (env : GraphEnv) : Nat → List Nat → TSState → Except TopErr TSState
  | 0, _, _ => .error .outOfFuel
  | _ + 1, [], st => .ok st
  | fuel + 1, i :: rest, st =>
      let step : Except TopErr TSState :=
        if i ∈ st.finished then .ok st
        else if i ∈ st.visiting then .error (.cyclic i)
        else
          match env.find i with
          | none => .ok st
          | some n =>
              match visitIds env fuel n.inbound { st with visiting := i :: st.visiting } with
              | .error e => .error e
              | .ok st2 =>
                  .ok { order := st2.order ++ [n],
                        visiting := st2.visiting.erase i,
                        finished := i :: st2.finished }
      match step with
      | .error e => .error e
      | .ok st' => visitIds env fuel rest st'

/-- Fuel exceeding the depth of any DFS call chain over `env`: each node can
be expanded at most once along a chain (the gray set blocks re-expansion),
and each list element walked costs one call. -/
def topsortFuel (env : GraphEnv) (outIds : List Nat) : Nat :=
  env.nodes.foldl (fun a n => a + n.inbound.length + 2) (outIds.length + 2)

def topsort (env : GraphEnv) (outIds : List Nat) : Except TopErr (List Node) :=
  (visitIds env (topsortFuel env outIds) outIds ⟨[], [], []⟩).map (fun st => st.order)

/-- Bookkeeping fields the storage collaborator exposes for persistence. -/
structure StorageBk where
  outputNames : List String
  dtypes : List String
  originalShapes : List (List Nat)
deriving DecidableEq, Repr

/-- Modelled from the spec: `io.storage.DataStore` (absent from src/) is an
opaque output sink created from the pipeline name, version tag and a
connection handle; only its bookkeeping fields matter to persistence. -/
structure DataStore where
  tableName : String
  versionTag : Option String
  conn : String
  bk : StorageBk
deriving DecidableEq, Repr

structure Pipeline where
  inputs : List Node
  outputs : List Node
  path : List Node
  nodesTransformation : List Node
  nodesInput : List Node
  nodesKeras : List Node
  nodesMetric : List Node
  name : String
  version : Option String
  storage : Option DataStore
deriving DecidableEq, Repr

/-- Modelled from the spec: `utils.flatten`/`utils.listify` normalise the
constructor arguments to a flat list of nodes; on an already-flat list they
are the identity. -/
def flattenListify (xs : List Node) : List Node := xs

/-- `_get_metric_nodes`: the MetricNodes hanging off any path node's
outbound set (a Python set; deduplicated).  Object references are resolved
through the graph environment. -/
def getMetricNodes (env : GraphEnv) (path : List Node) : List Node :=
  ((path.map (fun n => n.outbound.filterMap (fun j =>
      match env.find j with
      | some m => if m.role = .metric then some m else none
      | none => none))).flatten).dedup

/-- `set(self.path).intersection(self.inputs) - set(self.inputs)` from
`Pipeline.__init__` (line 58), translated literally: the elements of `path`
that are in `inputs` and then not in `inputs`. -/
def missingInputs (path inputs : List Node) : List Node :=
  (path.filter (fun n => decide (n ∈ inputs))).filter (fun n => decide (n ∉ inputs))

/-- `set(self.path).intersection(self.inputs) - set(self.path)` from
`Pipeline.__init__` (line 61), translated literally. -/
def extraInputs (path inputs : List Node) : List Node :=
  (path.filter (fun n => decide (n ∈ inputs))).filter (fun n => decide (n ∉ path))

inductive ConstructErr
  | top (e : TopErr)
  | disconnected (ids : List Nat)
  | unnamedOutput
  | keyErr (k : String)
deriving DecidableEq, Repr

/-- `Pipeline.__init__` (lines 48-73).  Notes kept faithful to the source:
the disconnected-input test uses the literally-translated (vacuous) set
expression of line 58; line 63 merely *constructs*
`ExtraInputsWarning(extra_inputs)` without raising or warning, hence the
discarded `let`; no validation of output names exists anywhere in the
constructor.  `ConstructErr.unnamedOutput` is the naming error the spec
describes; it is shown below to be unreachable. -/
def Pipeline.make (env : GraphEnv) (inputs outputs : List Node) (name : String)
    (version : Option String) (storage : Option String) : Except ConstructErr Pipeline :=
  let inputsF := flattenListify inputs
  let outputsF := flattenListify outputs
  match topsort env (idsOf outputsF) with
  | .error e => .error (.top e)
  | .ok path =>
      let missing := missingInputs path inputsF
      if missing.length > 0 then .error (.disconnected (idsOf missing))
      else
        let extra := extraInputs path inputsF
        let _ := extra
        let versionTag := version.map (fun v => v.replace "." "_")
        .ok { inputs := inputsF
              outputs := outputsF
              path := path
              nodesTransformation := path.filter (fun n => n.role.isTransformation)
              nodesInput := path.filter (fun n => decide (n.role = .input))
              nodesKeras := path.filter (fun n => decide (n.role = .keras))
              nodesMetric := getMetricNodes env path
              name := name
              version := version
              storage := storage.map (fun c =>
                { tableName := name, versionTag := versionTag, conn := c, bk := ⟨[], [], []⟩ }) }

def findIn (path : List Node) (i : Nat) : Option Node :=
  path.find? (fun n => decide (n.id = i))

def isOutputIn (outputs : List Node) (i : Nat) : Bool :=
  outputs.any (fun n => decide (n.id = i))

/-- Modelled from the spec (§4.2): `InputNode.load` (nodes/core.py, absent
from src/) injects the supplied data into the node's `output` slot and sets
`has_run`. -/
def nodeLoad (n : Node) (v : Arr) (s : PState) : PState :=
  { out := upd s.out n.id (some v), run := upd s.run n.id true }

/-- Modelled from the spec: `TransformationNode.transform` (nodes/core.py,
absent from src/) computes the node's function of its inbound nodes'
outputs into `output` and marks `has_run`.  Per §3 the `output` slot is
pass-scoped, so each pass recomputes it. -/
def nodeTransform (n : Node) (s : PState) : PState :=
  { out := upd s.out n.id
      (some (n.op.apply n.fitState (n.inbound.map (fun j => (s.out j).getD Arr.defaultA)))),
    run := upd s.run n.id true }

/-- Modelled from the spec (§4.3): `Node.clean_inbounds` (nodes/core.py,
absent from src/) clears the `output` of each of the node's inbound nodes
once that node's entire `outbound_nodes` set has `has_run = true` — unless
the inbound node is a declared pipeline output, which is retained for the
caller. -/
def cleanStep (path outputs : List Node) (s' : PState) (j : Nat) : PState :=
  match findIn path j with
  | none => s'
  | some jn =>
      if jn.outbound.all (fun c => s'.run c) && !(isOutputIn outputs j) then
        { s' with out := upd s'.out j none }
      else s'

def cleanInbounds (path outputs : List Node) (n : Node) (s : PState) : PState :=
  n.inbound.foldl (cleanStep path outputs) s

/-- One scheduler step of a transform/fit/partial_fit/evaluate pass:
`node.transform()` followed (unless `keep_data`) by `node.clean_inbounds()`
— `Pipeline.transform` lines 200-203; `fit`/`partial_fit` use the same step
with `keep_data = false` (their `node.fit()`/`node.partial_fit()` calls
update only the node's internal learned state, which is opaque here). -/
def runClean (path outputs : List Node) (keepData : Bool) (s : PState) (n : Node) : PState :=
  let s1 := nodeTransform n s
  if keepData then s1 else cleanInbounds path outputs n s1

/-- `Pipeline._load_inputs` (lines 94-99): load each target InputNode's data
by name; a missing key raises `KeyError(name)` — the error carries the state
at the moment of the raise (the partially-loaded inputs). -/
def loadInputsAux : List Node → Dict → PState → Except (String × PState) PState
  | [], _, s => .ok s
  | n :: rest, d, s =>
      match lookupD d n.name with
      | none => .error (n.name, s)
      | some v => loadInputsAux rest d (nodeLoad n v s)

/-- The first declared input whose name is absent from the supplied data. -/
def firstMissingInput (inputs : List Node) (d : Dict) : Option String :=
  (inputs.find? (fun n => (lookupD d n.name).isNone)).map (fun n => n.name)

/-- The default-index branch of `Pipeline.transform` (lines 193-195): a
range index over the row count of the first entry
(`list(input_data)[0]`, raising `IndexError` on an empty dict, and
`.shape[0]` raising `IndexError` on an empty shape). -/
def defaultIndex (inputData : Dict) : Except PyExn (Arr × Dict) :=
  match inputData with
  | [] => .error .indexError
  | (_, v) :: _ =>
      match v.shape with
      | [] => .error .indexError
      | nr :: _ => .ok (⟨[nr], (List.range nr).map Int.ofNat⟩, inputData)

/-- The index preparation of `Pipeline.transform` (lines 189-195).  The
guard is Python's truthiness test `if index_field:`, so the pop branch is
taken only for a string that is both present (non-None) and non-empty; an
empty string is falsy and falls through to the default-index branch with no
mutation.  In the pop branch the key is popped from the caller's dict (a
mutation of the input mapping) and the index must be one-dimensional. -/
def indexPrep (inputData : Dict) (indexField : Option String) : Except PyExn (Arr × Dict) :=
  match indexField with
  | some f =>
      if f.isEmpty then defaultIndex inputData
      else
        match popKey inputData f with
        | none => .error (.keyError f)
        | some (v, d') =>
            if v.shape.length > 1 then
              .error (.valueError "Index field cannot be multi-dimensional array; must be 1D")
            else .ok (v, d')
  | none => defaultIndex inputData

/-- `Pipeline.transform` (lines 176-208): index preparation, input loading,
the transformation sweep with per-node memory reclamation (skipped when
`keep_data`), then `[node.output for node in self.outputs]` — a plain list,
in output-declaration order.  The optional `self.storage.write` call feeds
an external sink and does not affect the returned value or node state, so it
is not part of the embedding.  The dict as mutated by the index pop is
returned alongside the result. -/
def Pipeline.transform (p : Pipeline) (s : PState) (inputData : Dict)
    (indexField : Option String) (keepData : Bool) : Except PyExn (PyRes × Dict) :=
  match indexPrep inputData indexField with
  | .error e => .error e
  | .ok (_ix, data) =>
      match loadInputsAux p.inputs data (resetRuns s) with
      | .error (m, _) => .error (.keyError m)
      | .ok s1 =>
          let s2 := p.nodesTransformation.foldl (runClean p.path p.outputs keepData) s1
          .ok (.list (p.outputs.map (fun n => s2.out n.id)), data)

/-- `Pipeline.fit` (lines 140-154): load inputs, then for every
transformation node `fit` (learned-state only, opaque here; Keras nodes get
the epochs argument), `transform`, `clean_inbounds`. -/
def Pipeline.fit (p : Pipeline) (s : PState) (inputData : Dict) (epochs : Nat) :
    Except PyExn PState :=
  let _ := epochs
  match loadInputsAux p.inputs inputData (resetRuns s) with
  | .error (m, _) => .error (.keyError m)
  | .ok s1 => .ok (p.nodesTransformation.foldl (runClean p.path p.outputs false) s1)

/-- `Pipeline.partial_fit` (lines 126-138): load inputs, then for every
transformation node `partial_fit` (learned-state only, opaque here),
`transform`, `clean_inbounds`. -/
def Pipeline.partialFit (p : Pipeline) (s : PState) (inputData : Dict) :
    Except PyExn PState :=
  match loadInputsAux p.inputs inputData (resetRuns s) with
  | .error (m, _) => .error (.keyError m)
  | .ok s1 => .ok (p.nodesTransformation.foldl (runClean p.path p.outputs false) s1)

/-- Modelled from the spec: `MetricNode.evaluate` (nodes/core.py, absent
from src/) computes the metric from its inbound nodes' outputs. -/
def nodeEvaluate (n : Node) (s : PState) : PState :=
  { out := upd s.out n.id
      (some (n.op.apply n.fitState (n.inbound.map (fun j => (s.out j).getD Arr.defaultA)))),
    run := upd s.run n.id true }

/-- `Pipeline.evaluate` (lines 224-238): the transformation sweep (always
cleaning), then every metric node, returning `{node.name: node.output}` for
the metric nodes.  The final state is returned for generator threading. -/
def Pipeline.evaluate (p : Pipeline) (s : PState) (inputData : Dict) :
    Except PyExn (PyRes × PState) :=
  match loadInputsAux p.inputs inputData (resetRuns s) with
  | .error (m, _) => .error (.keyError m)
  | .ok s1 =>
      let s2 := p.nodesTransformation.foldl (runClean p.path p.outputs false) s1
      let s3 := p.nodesMetric.foldl (fun s' n => nodeEvaluate n s') s2
      .ok (.dict (p.nodesMetric.map (fun n => (n.name, s3.out n.id))), s3)

/-- `Pipeline._fit_generator_node` (lines 101-109), for an ordinary
(non-Keras) node.  Per pulled batch: load the input nodes (note that
`_split_path` ignores its argument and reads `self.path` — line 82 — so
these are the whole pipeline's input and transformation nodes), run the
transformation nodes (no cleaning), call `node.partial_fit()` (an opaque
learned-state update, counted here), and only then test
`if i == (steps_per_epoch * epochs): break`.  Returns (batches consumed,
partial_fit calls on the node, unconsumed remainder of the generator,
state). -/
def fitGenNodeAux (p : Pipeline) (node : Node) (bound : Nat) :
    List Dict → Nat → PState → Except PyExn (Nat × Nat × List Dict × PState)
  | [], _, s => .ok (0, 0, [], s)
  | b :: rest, i, s =>
      let _ := node
      match loadInputsAux p.nodesInput b s with
      | .error (m, _) => .error (.keyError m)
      | .ok s1 =>
          let s2 := p.nodesTransformation.foldl (fun s' pn => nodeTransform pn s') s1
          if i = bound then .ok (1, 1, rest, s2)
          else
            match fitGenNodeAux p node bound rest (i + 1) s2 with
            | .error e => .error e
            | .ok (c, f, rem, s') => .ok (c + 1, f + 1, rem, s')

def Pipeline.fitGeneratorNode (p : Pipeline) (node : Node) (batches : List Dict)
    (stepsPerEpoch epochs : Nat) (s : PState) : Except PyExn (Nat × Nat × List Dict × PState) :=
  fitGenNodeAux p node (stepsPerEpoch * epochs) batches 0 s

/-- Modelled from the spec: `Pipeline._fit_generator_keras` (lines 111-124)
hands an adapter generator to the external Keras collaborator, whose
epoch-based protocol pulls `steps_per_epoch × epochs` batches from it; the
collaborator's fitting itself is out of scope, so only the consumption of
the shared generator is modelled. -/
def fitGenKeras (batches : List Dict) (stepsPerEpoch epochs : Nat) (s : PState) :
    (Nat × List Dict × PState) :=
  let c := min batches.length (stepsPerEpoch * epochs)
  (c, batches.drop c, s)

def fitGenFold (p : Pipeline) (stepsPerEpoch epochs : Nat) :
    List Node → List Dict → PState → Except PyExn (Nat × PState)
  | [], _, s => .ok (0, s)
  | n :: rest, batches, s =>
      if n ∈ p.nodesKeras then
        let (c, rem, s') := fitGenKeras batches stepsPerEpoch epochs s
        match fitGenFold p stepsPerEpoch epochs rest rem s' with
        | .error e => .error e
        | .ok (c', s'') => .ok (c + c', s'')
      else
        match p.fitGeneratorNode n batches stepsPerEpoch epochs s with
        | .error e => .error e
        | .ok (c, _f, rem, s') =>
            match fitGenFold p stepsPerEpoch epochs rest rem s' with
            | .error e => .error e
            | .ok (c', s'') => .ok (c + c', s'')

/-- `Pipeline.fit_generator` (lines 156-174): reject more than one Keras
node, then drive every transformation node over the (shared) generator in
turn.  Returns the total number of batches consumed. -/
def Pipeline.fitGenerator (p : Pipeline) (batches : List Dict)
    (stepsPerEpoch epochs : Nat) (s : PState) : Except PyExn (Nat × PState) :=
  if p.nodesKeras.length > 1 then
    .error (.valueError "Multiple Keras nodes cannot be present when fitting to generator")
  else fitGenFold p stepsPerEpoch epochs p.nodesTransformation batches s

/-- `Pipeline.transform_generator` (lines 210-222).  The body's
`if i == steps: StopIteration()` constructs an exception object without
raising it (a dead statement), and the yield expression
`self.transform(batch, out_type, index, keep_data=True)` reads the unbound
name `out_type`, so the first pulled batch raises `NameError` and the
generator dies.  Returns the yielded/raised results and the number of
batches pulled. -/
def Pipeline.transformGenerator (p : Pipeline) (batches : List Dict) (steps : Nat) :
    List (Except PyExn PyRes) × Nat :=
  let _ := p
  match batches with
  | [] => ([], 0)
  | _b :: _rest =>
      let _dead := if 0 = steps then some PyExn.stopIteration else none
      ([.error (.nameError "out_type")], 1)

/-- `Pipeline.evaluate_generator` (lines 240-244).  As in
`transform_generator`, `if i == steps: StopIteration()` constructs the
exception without raising it, so iteration is not stopped by `steps`: every
batch of the generator is pulled and evaluated.  Returns the yielded
results, the number of batches pulled, and the final state. -/
def evalGenAux (p : Pipeline) (steps : Nat) :
    List Dict → Nat → PState → List (Except PyExn PyRes) × Nat × PState
  | [], _, s => ([], 0, s)
  | b :: rest, i, s =>
      let _dead := if i = steps then some PyExn.stopIteration else none
      match p.evaluate s b with
      | .error e => ([.error e], 1, s)
      | .ok (r, s') =>
          let (rs, c, s'') := evalGenAux p steps rest (i + 1) s'
          (.ok r :: rs, c + 1, s'')

def Pipeline.evaluateGenerator (p : Pipeline) (batches : List Dict) (steps : Nat)
    (s : PState) : List (Except PyExn PyRes) × Nat × PState :=
  evalGenAux p steps batches 0 s

/-- The structural record `Pipeline.save` pickles (lines 263-272): the
pipeline's node lists (with each path node's `output` attribute as pickled —
`pathOutputs` — which the detach loop has just set to `None`), the
name/version metadata, and the storage bookkeeping fields when a storage
collaborator is attached.  No data tensors: only graph shape and learned
parameters (`Node.fitState` travels inside the node records). -/
structure SavedRecord where
  inputs : List Node
  path : List Node
  outputs : List Node
  name : String
  version : Option String
  pathOutputs : List (Option Arr)
  storageBk : Option StorageBk
deriving DecidableEq, Repr

/-- The first loop of `Pipeline.save` (lines 257-260): for each path node,
record `data[node] = node.output` in the side table, then set
`node.output = None`. -/
def detachLoop : List Node → (Nat → Option (Option Arr)) → PState →
    ((Nat → Option (Option Arr)) × PState)
  | [], tbl, s => (tbl, s)
  | n :: rest, tbl, s =>
      detachLoop rest (upd tbl n.id (some (s.out n.id)))
        { s with out := upd s.out n.id none }

/-- The last loop of `Pipeline.save` (lines 274-275): reinsert
`node.output = data[node]` for each path node. -/
def restoreLoop : List Node → (Nat → Option (Option Arr)) → PState → PState
  | [], _, s => s
  | n :: rest, tbl, s =>
      restoreLoop rest tbl { s with out := upd s.out n.id ((tbl n.id).getD none) }

/-- `Pipeline.save` (lines 246-275): detach every path node's output into a
side table (leaving `None` behind), serialise the structural record, then
restore each node's output from the side table so the live pipeline is
unaffected.  The file-system path handling is external to the engine; the
record is the content of the pickled artifact. -/
def Pipeline.save (p : Pipeline) (s : PState) : SavedRecord × PState :=
  let ts := detachLoop p.path (fun _ => none) s
  let record : SavedRecord :=
    { inputs := p.inputs
      path := p.path
      outputs := p.outputs
      name := p.name
      version := p.version
      pathOutputs := p.path.map (fun n => ts.2.out n.id)
      storageBk := p.storage.map (fun st => st.bk) }
  (record, restoreLoop p.path ts.1 ts.2)

/-- `load_pipeline` (lines 278-298): rebuild a Pipeline from the record by
calling the constructor on the stored node lists (the unpickled object
graph is exactly the record's path nodes, which serve as the graph
environment), reinstate the storage bookkeeping when a storage connection
is supplied (a record saved without storage lacks those keys — `KeyError`),
and finally overwrite `P.path` with the stored path. -/
def load_pipeline (record : SavedRecord) (storageDb : Option String) :
    Except ConstructErr Pipeline :=
  match Pipeline.make ⟨record.path⟩ record.inputs record.outputs record.name
      record.version storageDb with
  | .error e => .error e
  | .ok P =>
      match storageDb with
      | none => .ok { P with path := record.path }
      | some _ =>
          match record.storageBk with
          | none => .error (.keyErr "output_names")
          | some bk =>
              .ok { P with
                    storage := P.storage.map (fun st => { st with bk := bk })
                    path := record.path }

/-! Concrete graphs used as test vehicles: the spec's running example
(Input `x`; Transformation `a = double(x)` declared as sole output `"a"`),
plus small variants. -/

def arr123 : Arr := ⟨[3], [1, 2, 3]⟩

def arr246 : Arr := ⟨[3], [2, 4, 6]⟩

/-- Input node `x` feeding node id 1. -/
def xN : Node := ⟨0, .input, "x", false, [], [1], .idOp, 0⟩

/-- Transformation node `a = double(x)`, explicitly named. -/
def aN : Node := ⟨1, .transformation, "a", false, [0], [], .double, 0⟩

def envA : GraphEnv := ⟨[xN, aN]⟩

def dX : Dict := [("x", arr123)]

/-- The spec's example pipeline, as `Pipeline(inputs=[x], outputs=[a], "p")`
constructs it. -/
def pA : Pipeline :=
  { inputs := [xN]
    outputs := [aN]
    path := [xN, aN]
    nodesTransformation := [aN]
    nodesInput := [xN]
    nodesKeras := []
    nodesMetric := []
    name := "p"
    version := none
    storage := none }

/-- A default-named output node (its explicit name was never set). -/
def aDef : Node := ⟨1, .transformation, "megatron_default", true, [0], [], .double, 0⟩

def envDef : GraphEnv := ⟨[xN, aDef]⟩

/-- A dict carrying a one-dimensional index field alongside the data. -/
def dIx : Dict := [("ix", ⟨[2], [7, 8]⟩), ("x", arr123)]

/-- A dict whose first key is the empty string — a present but falsy
`index_field`. -/
def dEmptyKey : Dict := [("", ⟨[2], [7, 8]⟩), ("x", arr123)]

/-- A pass state with data present on node 0. -/
def sA : PState := ⟨fun i => if i = 0 then some arr123 else none, fun _ => false⟩

/-- Whether `list(input_data)[0]` and its `.shape[0]` exist, i.e. the
index-preparation of `transform` without an `index_field` succeeds. -/
def headShapeOk : Dict → Bool
  | [] => false
  | (_, v) :: _ => !v.shape.isEmpty

/-- Input node `y` feeding node id 2, alongside `x` (which feeds id 2 as
well in this two-input graph). -/
def yB : Node := ⟨1, .input, "y", false, [], [2], .idOp, 0⟩

def xB : Node := ⟨0, .input, "x", false, [], [2], .idOp, 0⟩

def bB : Node := ⟨2, .transformation, "b", false, [0, 1], [], .sumPair, 0⟩

/-- Two-input pipeline `b = x + y`. -/
def pB : Pipeline :=
  { inputs := [xB, yB]
    outputs := [bB]
    path := [xB, yB, bB]
    nodesTransformation := [bB]
    nodesInput := [xB, yB]
    nodesKeras := []
    nodesMetric := []
    name := "pb"
    version := none
    storage := none }

/-- The diamond graph: input `x` (id 0) feeds the two consumers `c1` (id 1)
and `c2` (id 2). -/
def xD : Node := ⟨0, .input, "x", false, [], [1, 2], .idOp, 0⟩

def c1D : Node := ⟨1, .transformation, "c1", false, [0], [], .double, 0⟩

def c2D : Node := ⟨2, .transformation, "c2", false, [0], [], .double, 0⟩

def pathD : List Node := [xD, c1D, c2D]

/-- Every node of the sweep reads only ids accumulated so far (the loaded
inputs and earlier sweep nodes): the topological-order property of the
computed path, restricted to what the transformation sweep consumes. -/
def sweepClosedB : List Nat → List Node → Bool
  | _, [] => true
  | acc, n :: rest =>
      n.inbound.all (fun j => decide (j ∈ acc)) && sweepClosedB (n.id :: acc) rest

/-- Every declared output is written during the pass: it is a loaded input
or a sweep node. -/
def outputsCoveredB (outputs : List Node) (ids : List Nat) : Bool :=
  outputs.all (fun n => decide (n.id ∈ ids))

/-- A learned-state-bearing variant of the example: `a = fitState * x` with
fit state 3. -/
def aS : Node := ⟨1, .transformation, "a", false, [0], [], .scaleByState, 3⟩

def pS : Pipeline :=
  { inputs := [xN]
    outputs := [aS]
    path := [xN, aS]
    nodesTransformation := [aS]
    nodesInput := [xN]
    nodesKeras := []
    nodesMetric := []
    name := "ps"
    version := none
    storage := none }

example : Pipeline.make envA [xN] [aN] "p" none none = .ok pA := by decide

example : pA.transform PState.blank dX none false =
    .ok (.list [some arr246], dX) := by decide

/-- C1: the claim says `transform` collects the declared outputs into a
name-to-data mapping, with `transform({"x": [1, 2, 3]}) = {"a": [2, 4, 6]}`
for the example pipeline.  The code (line 205) builds
`[node.output for node in self.outputs]` — a plain list — so on the example
the result is `[[2, 4, 6]]`, not the mapping `{"a": [2, 4, 6]}`. -/
theorem transform_returns_list_not_mapping :
    (pA.transform PState.blank dX none false).map Prod.fst ≠
      .ok (PyRes.dict [("a", some arr246)]) := by decide

/-- C1 (amended): `transform` returns the declared outputs' data collected
into a plain list in output-declaration order; for the example pipeline,
`transform({"x": [1, 2, 3]})` returns `[[2, 4, 6]]`. -/
theorem transform_example_list_output :
    (pA.transform PState.blank dX none false).map Prod.fst =
      .ok (PyRes.list [some arr246]) := by decide

/-- C2: constructing a Pipeline whose path contains the Input-role node `x`
while the declared inputs are empty should, per the claim, raise a
disconnected-input error — but `missing_inputs = set(path) ∩ inputs -
set(inputs)` (line 58) is identically empty, so construction succeeds: a
pipeline object is returned whose path-derived input nodes are `[x]` (id 0)
while its declared inputs are `[]`. -/
theorem make_ignores_disconnected_inputs :
    (Pipeline.make envA [] [aN] "p" none none).map
        (fun P => (idsOf P.nodesInput, idsOf P.inputs)) = .ok ([0], []) := by decide

/-- C9 (counterexample): a declared output carrying only a default name
(`is_default_name = true`) does not fail construction: `Pipeline.make`
returns a pipeline object, because no naming validation exists anywhere in
`Pipeline.__init__`. -/
theorem make_accepts_default_named_output :
    aDef.isDefaultName = true ∧
      (Pipeline.make envDef [xN] [aDef] "p" none none).map (fun P => idsOf P.outputs) =
        .ok [1] := by decide

/-- C9 (amended): Pipeline construction performs no output-name validation
at all — for no arguments does it raise the naming error the spec
describes; pipelines with default-named outputs are constructed
successfully. -/
theorem make_never_raises_naming_error (env : GraphEnv) (inputs outputs : List Node)
    (name : String) (version : Option String) (storage : Option String) :
    Pipeline.make env inputs outputs name version storage ≠
      .error ConstructErr.unnamedOutput := by
  unfold Pipeline.make
  cases h : topsort env (idsOf (flattenListify outputs)) with
  | error e => simp [h]
  | ok path =>
      simp only [h]
      by_cases hm : 0 < (missingInputs path (flattenListify inputs)).length
      · simp [hm]
      · simp [hm]

/-- C6: `_fit_generator_node` breaks only *after* processing the batch whose
index equals `steps_per_epoch * epochs`, so with `steps_per_epoch = 1`,
`epochs = 1` and three batches available it consumes 2 batches and calls
`partial_fit` twice — one more than the claimed bound of
`steps_per_epoch × epochs = 1`. -/
theorem fit_generator_node_off_by_one :
    (pA.fitGeneratorNode aN [dX, dX, dX] 1 1 PState.blank).map
        (fun r => (r.1, r.2.1)) = .ok (2, 2) ∧ ¬ ((2 : Nat) ≤ 1 * 1) := by
  constructor
  · decide
  · decide

/-- C7: the step bounds of the generator variants are not enforced:
`evaluate_generator` with `steps = 1` pulls all 3 batches of the generator,
because `if i == steps: StopIteration()` constructs the exception without
raising it; and `transform_generator` never yields a transform at all — its
first pulled batch raises `NameError` on the unbound name `out_type`. -/
theorem generator_step_bound_not_enforced :
    (pA.evaluateGenerator [dX, dX, dX] 1 PState.blank).2.1 = 3 ∧ ¬ ((3 : Nat) ≤ 1) ∧
      pA.transformGenerator [dX, dX, dX] 1 =
        ([.error (.nameError "out_type")], 1) := by
  refine ⟨by decide, by decide, by decide⟩

/-! Update and dictionary lemmas. -/

lemma upd_same {α : Type} (f : Nat → α) (i : Nat) (v : α) : upd f i v i = v := by
  simp [upd]

lemma upd_ne {α : Type} (f : Nat → α) (i j : Nat) (v : α) (h : j ≠ i) :
    upd f i v j = f j := by
  simp [upd, h]

lemma lookupD_eraseKey (d : Dict) (f : String) :
    lookupD (eraseKey d f) f = none := by
  unfold lookupD eraseKey
  rw [List.find?_eq_none.mpr]
  · rfl
  · intro kv hkv
    have h2 := (List.mem_filter.mp hkv).2
    simp only [ne_eq, decide_not, Bool.not_eq_true', decide_eq_false_iff_not] at h2
    simpa using h2

/-- C10 (counterexample): the claim quantifies over every non-None
`index_field`, but the source's guard is Python's truthiness test
`if index_field:` — an empty-string field is falsy, so `transform` with
`index_field=""` takes the default-index branch and performs no pop: the
returned mapping is the caller's dict unchanged, still containing the
`""` key. -/
theorem transform_empty_index_field_not_popped :
    (pA.transform PState.blank dEmptyKey (some "") false).map Prod.snd = .ok dEmptyKey ∧
      lookupD dEmptyKey "" ≠ none := by
  refine ⟨by decide, by decide⟩

/-- C10 (amended): when `transform` is called with a truthy `index_field`
— non-`None` and non-empty, per the source's `if index_field:` guard — the
caller-supplied input mapping is mutated by `input_data.pop(index_field)`
(line 190) before the inputs are loaded: the data the pass runs on — and
the mapping as left after the call — is the original dict with the
`index_field` key removed, so it no longer contains that key. -/
theorem transform_pops_index_field (p : Pipeline) (s : PState) (d : Dict) (f : String)
    (kd : Bool) (dd : Dict) (hf : f.isEmpty = false)
    (h : (p.transform s d (some f) kd).map Prod.snd = .ok dd) :
    dd = eraseKey d f ∧ lookupD dd f = none := by
  cases hv : lookupD d f with
  | none => simp [Pipeline.transform, indexPrep, popKey, hv, hf, Except.map] at h
  | some v =>
      by_cases hs : v.shape.length > 1
      · simp [Pipeline.transform, indexPrep, popKey, hv, hs, hf, Except.map] at h
      · cases hl : loadInputsAux p.inputs (eraseKey d f) (resetRuns s) with
        | error ms =>
            simp [Pipeline.transform, indexPrep, popKey, hv, hs, hf, hl, Except.map] at h
        | ok s1 =>
            simp only [Pipeline.transform, indexPrep, hf, Bool.false_eq_true, if_false,
              popKey, hv, Option.map_some', hs, hl, Except.map] at h
            injection h with h2
            exact ⟨h2.symm, by rw [← h2]; exact lookupD_eraseKey d f⟩

theorem transform_pops_index_field_witness :
    (String.isEmpty "ix" = false ∧
        (pA.transform PState.blank dIx (some "ix") false).map Prod.snd =
          .ok [("x", arr123)]) ∧
      (([("x", arr123)] : Dict) = eraseKey dIx "ix" ∧
        lookupD [("x", arr123)] "ix" = none) :=
  ⟨⟨by decide, by decide⟩,
    transform_pops_index_field pA PState.blank dIx "ix" false [("x", arr123)]
      (by decide) (by decide)⟩

/-! Persistence: `save` detaches and then restores every node's output. -/

lemma detachLoop_run (l : List Node) (tbl : Nat → Option (Option Arr)) (s : PState) :
    (detachLoop l tbl s).2.run = s.run := by
  induction l generalizing tbl s with
  | nil => rfl
  | cons n rest ih => simp [detachLoop, ih]

lemma detachLoop_notmem (l : List Node) (tbl : Nat → Option (Option Arr)) (s : PState)
    (i : Nat) (h : i ∉ idsOf l) :
    (detachLoop l tbl s).1 i = tbl i ∧ (detachLoop l tbl s).2.out i = s.out i := by
  induction l generalizing tbl s with
  | nil => exact ⟨rfl, rfl⟩
  | cons n rest ih =>
      have hni : i ≠ n.id := by
        intro hc; exact h (by simp [idsOf, hc])
      have hrest : i ∉ idsOf rest := by
        intro hc; exact h (by simp [idsOf] at hc ⊢; exact Or.inr hc)
      have := ih (upd tbl n.id (some (s.out n.id))) { s with out := upd s.out n.id none } hrest
      refine ⟨?_, ?_⟩
      · rw [detachLoop, this.1, upd_ne _ _ _ _ hni]
      · rw [detachLoop, this.2]; exact upd_ne _ _ _ _ hni

lemma detachLoop_tbl_mem (l : List Node) (tbl : Nat → Option (Option Arr)) (s : PState)
    (i : Nat) (hnd : (idsOf l).Nodup) (h : i ∈ idsOf l) :
    (detachLoop l tbl s).1 i = some (s.out i) := by
  induction l generalizing tbl s with
  | nil => simp [idsOf] at h
  | cons n rest ih =>
      have hnd' : (idsOf rest).Nodup := (List.nodup_cons.mp hnd).2
      by_cases hi : i = n.id
      · have hni : n.id ∉ idsOf rest := (List.nodup_cons.mp hnd).1
        rw [detachLoop,
          (detachLoop_notmem rest _ _ i (by rw [hi]; exact hni)).1, hi, upd_same]
      · have hrest : i ∈ idsOf rest := by
          simp [idsOf] at h ⊢
          rcases h with h | h
          · exact absurd h hi
          · exact h
        rw [detachLoop, ih _ _ hnd' hrest]
        simp [upd_ne _ _ _ _ hi]

lemma restoreLoop_run (l : List Node) (tbl : Nat → Option (Option Arr)) (s : PState) :
    (restoreLoop l tbl s).run = s.run := by
  induction l generalizing s with
  | nil => rfl
  | cons n rest ih => simp [restoreLoop, ih]

lemma restoreLoop_notmem (l : List Node) (tbl : Nat → Option (Option Arr)) (s : PState)
    (i : Nat) (h : i ∉ idsOf l) : (restoreLoop l tbl s).out i = s.out i := by
  induction l generalizing s with
  | nil => rfl
  | cons n rest ih =>
      have hni : i ≠ n.id := by
        intro hc; exact h (by simp [idsOf, hc])
      have hrest : i ∉ idsOf rest := by
        intro hc; exact h (by simp [idsOf] at hc ⊢; exact Or.inr hc)
      rw [restoreLoop, ih _ hrest]
      exact upd_ne _ _ _ _ hni

lemma restoreLoop_mem (l : List Node) (tbl : Nat → Option (Option Arr)) (s : PState)
    (i : Nat) (hnd : (idsOf l).Nodup) (h : i ∈ idsOf l) :
    (restoreLoop l tbl s).out i = (tbl i).getD none := by
  induction l generalizing s with
  | nil => simp [idsOf] at h
  | cons n rest ih =>
      have hnd' : (idsOf rest).Nodup := (List.nodup_cons.mp hnd).2
      by_cases hi : i = n.id
      · have hni : n.id ∉ idsOf rest := (List.nodup_cons.mp hnd).1
        rw [restoreLoop, restoreLoop_notmem rest _ _ i (by rw [hi]; exact hni), hi]
        simp [upd_same]
      · have hrest : i ∈ idsOf rest := by
          simp [idsOf] at h ⊢
          rcases h with h | h
          · exact absurd h hi
          · exact h
        rw [restoreLoop, ih _ hnd' hrest]

/-- C5: `save` leaves the live pipeline untouched: after the detach /
serialize / restore sequence of `Pipeline.save`, every node has exactly the
`output` value and `has_run` flag it had immediately before the call (the
pipeline's connectivity and learned state are fields of the immutable
`Pipeline`/`Node` values `save` returns unchanged). -/
theorem save_leaves_state_unchanged (p : Pipeline) (s : PState)
    (hnd : (idsOf p.path).Nodup) :
    ∀ i, ((p.save s).2).out i = s.out i ∧ ((p.save s).2).run i = s.run i := by
  intro i
  unfold Pipeline.save
  constructor
  · by_cases h : i ∈ idsOf p.path
    · rw [restoreLoop_mem _ _ _ _ hnd h, detachLoop_tbl_mem _ _ _ _ hnd h]
      rfl
    · rw [restoreLoop_notmem _ _ _ _ h, (detachLoop_notmem _ _ _ _ h).2]
  · rw [restoreLoop_run, detachLoop_run]

theorem save_leaves_state_unchanged_witness :
    (idsOf pA.path).Nodup ∧
      (((pA.save sA).2).out 0 = sA.out 0 ∧ ((pA.save sA).2).run 0 = sA.run 0) :=
  ⟨by decide, save_leaves_state_unchanged pA sA (by decide) 0⟩

/-! Input loading: a missing key fails naming the key, before any
transformation step runs. -/

lemma indexPrep_none_ok (d : Dict) (hh : headShapeOk d = true) :
    ∃ ix, indexPrep d none = .ok (ix, d) := by
  match d, hh with
  | (k, v) :: rest, hh =>
      cases hsv : v.shape with
      | nil =>
          rw [headShapeOk, hsv] at hh
          simp at hh
      | cons nr tl =>
          exact ⟨⟨[nr], (List.range nr).map Int.ofNat⟩, by simp [indexPrep, defaultIndex, hsv]⟩

lemma loadInputsAux_untouched (ins : List Node) (d : Dict) (s : PState)
    (m : String) (t : PState) (h : loadInputsAux ins d s = .error (m, t)) :
    ∀ i, i ∉ idsOf ins → t.out i = s.out i ∧ t.run i = s.run i := by
  induction ins generalizing s with
  | nil => simp [loadInputsAux] at h
  | cons n rest ih =>
      intro i hi
      have hni : i ≠ n.id := by
        intro hc; exact hi (by simp [idsOf, hc])
      have hrest : i ∉ idsOf rest := by
        intro hc; exact hi (by simp [idsOf] at hc ⊢; exact Or.inr hc)
      rw [loadInputsAux] at h
      cases hk : lookupD d n.name with
      | none =>
          rw [hk] at h
          injection h with h1
          obtain ⟨rfl, rfl⟩ := Prod.mk.injEq .. ▸ h1
          exact ⟨rfl, rfl⟩
      | some v =>
          rw [hk] at h
          have := ih (nodeLoad n v s) h i hrest
          rw [this.1, this.2]
          exact ⟨upd_ne _ _ _ _ hni, upd_ne _ _ _ _ hni⟩

lemma loadInputsAux_first_missing (ins : List Node) (d : Dict) (s : PState)
    (m : String) (hm : firstMissingInput ins d = some m) :
    ∃ t, loadInputsAux ins d s = .error (m, t) := by
  induction ins generalizing s with
  | nil => simp [firstMissingInput] at hm
  | cons n rest ih =>
      cases hk : lookupD d n.name with
      | none =>
          have hmn : m = n.name := by
            simp [firstMissingInput, List.find?, hk] at hm
            exact hm.symm
          exact ⟨s, by rw [loadInputsAux, hk, hmn]⟩
      | some v =>
          have hm' : firstMissingInput rest d = some m := by
            simpa [firstMissingInput, List.find?, hk] using hm
          obtain ⟨t, ht⟩ := ih hm' (s := nodeLoad n v s)
          exact ⟨t, by rw [loadInputsAux, hk]; exact ht⟩

lemma firstMissingInput_spec (ins : List Node) (d : Dict) (m : String)
    (h : firstMissingInput ins d = some m) :
    lookupD d m = none ∧ m ∈ ins.map (fun n => n.name) := by
  unfold firstMissingInput at h
  cases hf : ins.find? (fun n => (lookupD d n.name).isNone) with
  | none => rw [hf] at h; cases h
  | some n =>
      rw [hf] at h
      injection h with h1
      have hp := List.find?_some hf
      have hmem := List.mem_of_find?_eq_some hf
      subst h1
      constructor
      · exact Option.isNone_iff_eq_none.mp hp
      · exact List.mem_map.mpr ⟨n, hmem, rfl⟩

/-- C8: if some declared Input node's name is missing from the supplied
input mapping, then loading the inputs fails with `KeyError` naming the
(first) missing key, and hence `transform`, `fit`, `partial_fit` and
`evaluate` all return exactly that error, with no transformation node
having executed: at the moment of the raise every transformation node's
output is untouched and its run flag is false (the ids of the
transformation nodes being distinct from the declared inputs'). -/
theorem missing_input_key_raises_keyerror (p : Pipeline) (s : PState) (d : Dict)
    (m : String) (hm : firstMissingInput p.inputs d = some m)
    (hh : headShapeOk d = true)
    (hdisj : ∀ n ∈ p.nodesTransformation, n.id ∉ idsOf p.inputs) :
    (lookupD d m = none ∧ m ∈ p.inputs.map (fun n => n.name)) ∧
      p.transform s d none false = .error (.keyError m) ∧
      p.fit s d 1 = .error (.keyError m) ∧
      p.partialFit s d = .error (.keyError m) ∧
      p.evaluate s d = .error (.keyError m) ∧
      ∃ t, loadInputsAux p.inputs d (resetRuns s) = .error (m, t) ∧
        ∀ n ∈ p.nodesTransformation, t.out n.id = s.out n.id ∧ t.run n.id = false := by
  obtain ⟨hmn, hmm⟩ := firstMissingInput_spec p.inputs d m hm
  obtain ⟨t, ht⟩ := loadInputsAux_first_missing p.inputs d (resetRuns s) m hm
  obtain ⟨ix, hip⟩ := indexPrep_none_ok d hh
  refine ⟨⟨hmn, hmm⟩, ?_, ?_, ?_, ?_, t, ht, ?_⟩
  · unfold Pipeline.transform
    simp [hip, ht]
  · unfold Pipeline.fit
    simp [ht]
  · unfold Pipeline.partialFit
    simp [ht]
  · unfold Pipeline.evaluate
    simp [ht]
  · intro n hn
    have h2 := loadInputsAux_untouched p.inputs d (resetRuns s) m t ht n.id (hdisj n hn)
    exact ⟨h2.1, h2.2⟩

theorem missing_input_key_raises_keyerror_witness :
    firstMissingInput pB.inputs dX = some "y" ∧
      ((lookupD dX "y" = none ∧ "y" ∈ pB.inputs.map (fun n => n.name)) ∧
        pB.transform sA dX none false = .error (.keyError "y") ∧
        pB.fit sA dX 1 = .error (.keyError "y") ∧
        pB.partialFit sA dX = .error (.keyError "y") ∧
        pB.evaluate sA dX = .error (.keyError "y") ∧
        ∃ t, loadInputsAux pB.inputs dX (resetRuns sA) = .error ("y", t) ∧
          ∀ n ∈ pB.nodesTransformation, t.out n.id = sA.out n.id ∧ t.run n.id = false) :=
  ⟨by decide, missing_input_key_raises_keyerror pB sA dX "y" (by decide) (by decide)
    (by decide)⟩

/-! Memory reclamation: diamond safety. -/

lemma cleanStep_run (path outputs : List Node) (s : PState) (j : Nat) :
    (cleanStep path outputs s j).run = s.run := by
  unfold cleanStep
  cases findIn path j with
  | none => rfl
  | some jn =>
      by_cases hg : (jn.outbound.all (fun c => s.run c) && !(isOutputIn outputs j)) = true
      · simp [hg]
      · simp [hg]

lemma cleanInbounds_run (path outputs : List Node) (n : Node) (s : PState) :
    (cleanInbounds path outputs n s).run = s.run := by
  unfold cleanInbounds
  induction n.inbound generalizing s with
  | nil => rfl
  | cons j js ih => rw [List.foldl_cons, ih, cleanStep_run]

lemma runClean_run_mono (path outputs : List Node) (kd : Bool) (s : PState) (n : Node)
    (c : Nat) (h : s.run c = true) : (runClean path outputs kd s n).run c = true := by
  unfold runClean
  have h1 : (nodeTransform n s).run c = true := by
    unfold nodeTransform upd
    by_cases hc : c = n.id <;> simp [hc, h]
  cases kd with
  | true => simpa using h1
  | false => simpa [cleanInbounds_run] using h1

lemma foldl_runClean_run_mono (path outputs : List Node) (kd : Bool) (ns : List Node)
    (s : PState) (c : Nat) (h : s.run c = true) :
    (ns.foldl (runClean path outputs kd) s).run c = true := by
  induction ns generalizing s with
  | nil => exact h
  | cons n rest ih =>
      rw [List.foldl_cons]
      exact ih _ (runClean_run_mono path outputs kd s n c h)

lemma cleanFold_out_none (path outputs : List Node) (js : List Nat) (s : PState) (j : Nat)
    (h : (js.foldl (cleanStep path outputs) s).out j = none) :
    s.out j = none ∨
      (isOutputIn outputs j = false ∧
        ∃ jn, findIn path j = some jn ∧ ∀ c ∈ jn.outbound, s.run c = true) := by
  induction js generalizing s with
  | nil => exact Or.inl h
  | cons j' js' ih =>
      rw [List.foldl_cons] at h
      rcases ih (cleanStep path outputs s j') h with h1 | h1
      · cases hf : findIn path j' with
        | none =>
            simp only [cleanStep, hf] at h1
            exact Or.inl h1
        | some jn' =>
            simp only [cleanStep, hf] at h1
            by_cases hg : (jn'.outbound.all (fun c => s.run c) && !(isOutputIn outputs j')) = true
            · rw [if_pos hg] at h1
              have h2 : upd s.out j' none j = none := h1
              by_cases hj : j = j'
              · subst hj
                have hga := (Bool.and_eq_true ..).mp hg
                refine Or.inr ⟨by simpa using hga.2, jn', hf, ?_⟩
                intro c hc
                exact (List.all_eq_true.mp hga.1) c hc
              · rw [upd_ne _ _ _ _ hj] at h2
                exact Or.inl h2
            · rw [if_neg hg] at h1
              exact Or.inl h1
      · rw [cleanStep_run] at h1
        exact Or.inr h1

lemma runClean_reclaim (path outputs : List Node) (s : PState) (n : Node) (j : Nat)
    (h : (runClean path outputs false s n).out j = none) :
    s.out j = none ∨
      (isOutputIn outputs j = false ∧
        ∃ jn, findIn path j = some jn ∧
          ∀ c ∈ jn.outbound, (runClean path outputs false s n).run c = true) := by
  have hrun : (runClean path outputs false s n).run = (nodeTransform n s).run := by
    unfold runClean
    simp [cleanInbounds_run]
  unfold runClean at h
  simp only [if_false, Bool.false_eq_true] at h
  rcases cleanFold_out_none path outputs n.inbound (nodeTransform n s) j h with h1 | h1
  · have h2 : upd s.out n.id
        (some (n.op.apply n.fitState (n.inbound.map (fun i => (s.out i).getD Arr.defaultA)))) j =
          none := h1
    by_cases hj : j = n.id
    · rw [hj, upd_same] at h2; cases h2
    · rw [upd_ne _ _ _ _ hj] at h2
      exact Or.inl h2
  · refine Or.inr ⟨h1.1, ?_⟩
    obtain ⟨jn, hjn, hall⟩ := h1.2
    exact ⟨jn, hjn, by rw [hrun]; exact hall⟩

/-- C3: in any pass built from the transform/fit reclamation step without
`keep_data` (the `runClean path outputs false` fold used verbatim by
`Pipeline.transform`, `Pipeline.fit` and `Pipeline.partialFit`), a node
whose output was present and is found cleared afterwards had its entire
`outbound_nodes` set executed — in particular a node feeding two consumers
is not reclaimed until both have run (and, applied to any prefix of the
pass, never earlier) — and a declared pipeline output is never reclaimed
(the reclaimed node is provably not a declared output). -/
theorem reclaim_only_after_all_consumers_ran (path outputs : List Node) (ns : List Node)
    (s : PState) (j : Nat) (jn : Node) (v : Arr)
    (hj : findIn path j = some jn) (h0 : s.out j = some v)
    (hN : (ns.foldl (runClean path outputs false) s).out j = none) :
    isOutputIn outputs j = false ∧
      ∀ c ∈ jn.outbound, (ns.foldl (runClean path outputs false) s).run c = true := by
  induction ns generalizing s v with
  | nil => rw [List.foldl_nil, h0] at hN; cases hN
  | cons n rest ih =>
      rw [List.foldl_cons] at hN ⊢
      cases h' : (runClean path outputs false s n).out j with
      | some v' => exact ih (runClean path outputs false s n) v' h' hN
      | none =>
          rcases runClean_reclaim path outputs s n j h' with h1 | h1
          · rw [h0] at h1; cases h1
          · obtain ⟨hout, jn2, hjn2, hall⟩ := h1
            rw [hj] at hjn2
            injection hjn2 with hjj
            subst hjj
            refine ⟨hout, fun c hc => ?_⟩
            exact foldl_runClean_run_mono path outputs false rest _ c (hall c hc)

theorem reclaim_only_after_all_consumers_ran_witness :
    (findIn pathD 0 = some xD ∧ sA.out 0 = some arr123 ∧
        (([c1D, c2D].foldl (runClean pathD [c2D] false) sA).out 0 = none)) ∧
      (isOutputIn [c2D] 0 = false ∧
        ∀ c ∈ xD.outbound, (([c1D, c2D].foldl (runClean pathD [c2D] false) sA).run c = true)) :=
  ⟨⟨by decide, by decide, by decide⟩,
    reclaim_only_after_all_consumers_ran pathD [c2D] [c1D, c2D] sA 0 xD arr123
      (by decide) (by decide) (by decide)⟩

/-! Persistence round-trip: the transform result is a function of the graph
and the input data only. -/

lemma cleanStep_agree (path outputs : List Node) (j' : Nat) (s1 s2 : PState)
    (A : List Nat) (hrun : s1.run = s2.run) (hout : ∀ i ∈ A, s1.out i = s2.out i) :
    (cleanStep path outputs s1 j').run = (cleanStep path outputs s2 j').run ∧
      ∀ i ∈ A, (cleanStep path outputs s1 j').out i = (cleanStep path outputs s2 j').out i := by
  refine ⟨by rw [cleanStep_run, cleanStep_run, hrun], ?_⟩
  intro i hi
  cases hf : findIn path j' with
  | none =>
      simp only [cleanStep, hf]
      exact hout i hi
  | some jn =>
      simp only [cleanStep, hf, hrun]
      by_cases hg : (jn.outbound.all (fun c => s2.run c) && !(isOutputIn outputs j')) = true
      · rw [if_pos hg, if_pos hg]
        show upd s1.out j' none i = upd s2.out j' none i
        by_cases hj : i = j'
        · rw [hj, upd_same, upd_same]
        · rw [upd_ne _ _ _ _ hj, upd_ne _ _ _ _ hj]
          exact hout i hi
      · rw [if_neg hg, if_neg hg]
        exact hout i hi

lemma cleanFold_agree (path outputs : List Node) (js : List Nat) (s1 s2 : PState)
    (A : List Nat) (hrun : s1.run = s2.run) (hout : ∀ i ∈ A, s1.out i = s2.out i) :
    (js.foldl (cleanStep path outputs) s1).run = (js.foldl (cleanStep path outputs) s2).run ∧
      ∀ i ∈ A, (js.foldl (cleanStep path outputs) s1).out i =
        (js.foldl (cleanStep path outputs) s2).out i := by
  induction js generalizing s1 s2 with
  | nil => exact ⟨hrun, hout⟩
  | cons j' js' ih =>
      obtain ⟨hr, ho⟩ := cleanStep_agree path outputs j' s1 s2 A hrun hout
      exact ih (cleanStep path outputs s1 j') (cleanStep path outputs s2 j') hr ho

lemma nodeTransform_agree (n : Node) (s1 s2 : PState) (A : List Nat)
    (hrun : s1.run = s2.run) (hout : ∀ i ∈ A, s1.out i = s2.out i)
    (hin : ∀ j ∈ n.inbound, j ∈ A) :
    (nodeTransform n s1).run = (nodeTransform n s2).run ∧
      ∀ i ∈ n.id :: A, (nodeTransform n s1).out i = (nodeTransform n s2).out i := by
  have hv : n.inbound.map (fun j => (s1.out j).getD Arr.defaultA) =
      n.inbound.map (fun j => (s2.out j).getD Arr.defaultA) := by
    apply List.map_congr_left
    intro j hj
    rw [hout j (hin j hj)]
  refine ⟨by unfold nodeTransform; rw [hrun], ?_⟩
  intro i hi
  show upd s1.out n.id _ i = upd s2.out n.id _ i
  by_cases hj : i = n.id
  · rw [hj, upd_same, upd_same, hv]
  · rw [upd_ne _ _ _ _ hj, upd_ne _ _ _ _ hj]
    rcases List.mem_cons.mp hi with h | h
    · exact absurd h hj
    · exact hout i h

lemma runClean_agree (path outputs : List Node) (kd : Bool) (n : Node) (s1 s2 : PState)
    (A : List Nat) (hrun : s1.run = s2.run) (hout : ∀ i ∈ A, s1.out i = s2.out i)
    (hin : ∀ j ∈ n.inbound, j ∈ A) :
    (runClean path outputs kd s1 n).run = (runClean path outputs kd s2 n).run ∧
      ∀ i ∈ n.id :: A, (runClean path outputs kd s1 n).out i =
        (runClean path outputs kd s2 n).out i := by
  obtain ⟨hr, ho⟩ := nodeTransform_agree n s1 s2 A hrun hout hin
  unfold runClean
  cases kd with
  | true => exact ⟨hr, ho⟩
  | false =>
      exact cleanFold_agree path outputs n.inbound (nodeTransform n s1)
        (nodeTransform n s2) (n.id :: A) hr ho

lemma sweep_agree (path outputs : List Node) (kd : Bool) (ns : List Node) :
    ∀ (acc : List Nat) (s1 s2 : PState), sweepClosedB acc ns = true →
      s1.run = s2.run → (∀ i ∈ acc, s1.out i = s2.out i) →
      (ns.foldl (runClean path outputs kd) s1).run =
          (ns.foldl (runClean path outputs kd) s2).run ∧
        ∀ i, i ∈ acc ∨ i ∈ idsOf ns →
          (ns.foldl (runClean path outputs kd) s1).out i =
            (ns.foldl (runClean path outputs kd) s2).out i := by
  induction ns with
  | nil =>
      intro acc s1 s2 _ hrun hout
      refine ⟨hrun, fun i hi => ?_⟩
      rcases hi with h | h
      · exact hout i h
      · simp [idsOf] at h
  | cons n rest ih =>
      intro acc s1 s2 hc hrun hout
      rw [sweepClosedB] at hc
      obtain ⟨hin, hrest⟩ := (Bool.and_eq_true ..).mp hc
      have hin' : ∀ j ∈ n.inbound, j ∈ acc := by
        intro j hj
        have := (List.all_eq_true.mp hin) j hj
        exact of_decide_eq_true this
      obtain ⟨hr, ho⟩ := runClean_agree path outputs kd n s1 s2 acc hrun hout hin'
      rw [List.foldl_cons, List.foldl_cons]
      obtain ⟨hr2, ho2⟩ := ih (n.id :: acc) _ _ hrest hr ho
      refine ⟨hr2, fun i hi => ?_⟩
      apply ho2
      rcases hi with h | h
      · exact Or.inl (List.mem_cons.mpr (Or.inr h))
      · rcases List.mem_cons.mp (show i ∈ n.id :: idsOf rest from h) with h2 | h2
        · exact Or.inl (List.mem_cons.mpr (Or.inl h2))
        · exact Or.inr h2

lemma loadInputsAux_agree (d : Dict) (ins : List Node) :
    ∀ (acc : List Nat) (s1 s2 : PState), s1.run = s2.run →
      (∀ i ∈ acc, s1.out i = s2.out i) →
      (∀ m t1, loadInputsAux ins d s1 = .error (m, t1) →
        ∃ t2, loadInputsAux ins d s2 = .error (m, t2)) ∧
      (∀ t1, loadInputsAux ins d s1 = .ok t1 →
        ∃ t2, loadInputsAux ins d s2 = .ok t2 ∧ t1.run = t2.run ∧
          ∀ i, i ∈ acc ∨ i ∈ idsOf ins → t1.out i = t2.out i) := by
  induction ins with
  | nil =>
      intro acc s1 s2 hrun hout
      constructor
      · intro m t1 h
        simp [loadInputsAux] at h
      · intro t1 h
        rw [loadInputsAux] at h
        injection h with h1
        subst h1
        refine ⟨s2, rfl, hrun, fun i hi => ?_⟩
        rcases hi with h | h
        · exact hout i h
        · simp [idsOf] at h
  | cons n rest ih =>
      intro acc s1 s2 hrun hout
      cases hk : lookupD d n.name with
      | none =>
          constructor
          · intro m t1 h
            rw [loadInputsAux, hk] at h
            injection h with h1
            obtain ⟨rfl, rfl⟩ := Prod.mk.injEq .. ▸ h1
            exact ⟨s2, by rw [loadInputsAux, hk]⟩
          · intro t1 h
            rw [loadInputsAux, hk] at h
            cases h
      | some v =>
          have hrun' : (nodeLoad n v s1).run = (nodeLoad n v s2).run := by
            unfold nodeLoad
            rw [hrun]
          have hout' : ∀ i ∈ n.id :: acc, (nodeLoad n v s1).out i = (nodeLoad n v s2).out i := by
            intro i hi
            show upd s1.out n.id (some v) i = upd s2.out n.id (some v) i
            by_cases hj : i = n.id
            · rw [hj, upd_same, upd_same]
            · rw [upd_ne _ _ _ _ hj, upd_ne _ _ _ _ hj]
              rcases List.mem_cons.mp hi with h | h
              · exact absurd h hj
              · exact hout i h
          obtain ⟨he, hok⟩ := ih (n.id :: acc) (nodeLoad n v s1) (nodeLoad n v s2) hrun' hout'
          constructor
          · intro m t1 h
            rw [loadInputsAux, hk] at h
            obtain ⟨t2, ht2⟩ := he m t1 h
            exact ⟨t2, by rw [loadInputsAux, hk]; exact ht2⟩
          · intro t1 h
            rw [loadInputsAux, hk] at h
            obtain ⟨t2, ht2, hr2, ho2⟩ := hok t1 h
            refine ⟨t2, by rw [loadInputsAux, hk]; exact ht2, hr2, fun i hi => ?_⟩
            apply ho2
            rcases hi with h2 | h2
            · exact Or.inl (List.mem_cons.mpr (Or.inr h2))
            · rcases List.mem_cons.mp (show i ∈ n.id :: idsOf rest from h2) with h3 | h3
              · exact Or.inl (List.mem_cons.mpr (Or.inl h3))
              · exact Or.inr h3

lemma transform_err_ip (p : Pipeline) (s : PState) (d : Dict) (idx : Option String)
    (kd : Bool) (e : PyExn) (hip : indexPrep d idx = .error e) :
    p.transform s d idx kd = .error e := by
  unfold Pipeline.transform
  rw [hip]

lemma transform_ok_ip (p : Pipeline) (s : PState) (d : Dict) (idx : Option String)
    (kd : Bool) (ix : Arr) (data : Dict) (hip : indexPrep d idx = .ok (ix, data)) :
    p.transform s d idx kd =
      (match loadInputsAux p.inputs data (resetRuns s) with
       | .error (m, _) => .error (.keyError m)
       | .ok s1 =>
           .ok (.list (p.outputs.map (fun n =>
             (p.nodesTransformation.foldl (runClean p.path p.outputs kd) s1).out n.id)),
             data)) := by
  unfold Pipeline.transform
  rw [hip]

lemma transform_state_indep (p : Pipeline)
    (hclosed : sweepClosedB (idsOf p.inputs) p.nodesTransformation = true)
    (hcov : outputsCoveredB p.outputs (idsOf p.inputs ++ idsOf p.nodesTransformation) = true)
    (s1 s2 : PState) (d : Dict) (idx : Option String) (kd : Bool) :
    p.transform s1 d idx kd = p.transform s2 d idx kd := by
  cases hip : indexPrep d idx with
  | error e =>
      rw [transform_err_ip p s1 d idx kd e hip, transform_err_ip p s2 d idx kd e hip]
  | ok ixd =>
      obtain ⟨ix, data⟩ := ixd
      rw [transform_ok_ip p s1 d idx kd ix data hip, transform_ok_ip p s2 d idx kd ix data hip]
      have hrun0 : (resetRuns s1).run = (resetRuns s2).run := rfl
      have hout0 : ∀ i ∈ ([] : List Nat), (resetRuns s1).out i = (resetRuns s2).out i := by
        intro i hi; cases hi
      obtain ⟨he, hok⟩ := loadInputsAux_agree data p.inputs [] (resetRuns s1) (resetRuns s2)
        hrun0 hout0
      cases hl : loadInputsAux p.inputs data (resetRuns s1) with
      | error mt =>
          obtain ⟨m, t1⟩ := mt
          obtain ⟨t2, ht2⟩ := he m t1 hl
          rw [ht2]
      | ok t1 =>
          obtain ⟨t2, ht2, hr, ho⟩ := hok t1 hl
          rw [ht2]
          have hout1 : ∀ i ∈ idsOf p.inputs, t1.out i = t2.out i := by
            intro i hi
            exact ho i (Or.inr hi)
          obtain ⟨_, hfin⟩ := sweep_agree p.path p.outputs kd p.nodesTransformation
            (idsOf p.inputs) t1 t2 hclosed hr hout1
          have hmap : p.outputs.map (fun n =>
              (p.nodesTransformation.foldl (runClean p.path p.outputs kd) t1).out n.id) =
              p.outputs.map (fun n =>
              (p.nodesTransformation.foldl (runClean p.path p.outputs kd) t2).out n.id) := by
            apply List.map_congr_left
            intro n hn
            apply hfin
            have := (List.all_eq_true.mp hcov) n hn
            have hmem := of_decide_eq_true this
            rcases List.mem_append.mp hmem with h | h
            · exact Or.inl h
            · exact Or.inr h
          show Except.ok (PyRes.list (p.outputs.map (fun n =>
              (p.nodesTransformation.foldl (runClean p.path p.outputs kd) t1).out n.id)),
              data) =
            Except.ok (PyRes.list (p.outputs.map (fun n =>
              (p.nodesTransformation.foldl (runClean p.path p.outputs kd) t2).out n.id)),
              data)
          rw [hmap]

lemma transform_fields_congr (p q : Pipeline) (h1 : q.inputs = p.inputs)
    (h2 : q.nodesTransformation = p.nodesTransformation) (h3 : q.path = p.path)
    (h4 : q.outputs = p.outputs) (s : PState) (d : Dict) (idx : Option String) (kd : Bool) :
    q.transform s d idx kd = p.transform s d idx kd := by
  unfold Pipeline.transform
  rw [h1, h2, h3, h4]

lemma missingInputs_nil (path inputs : List Node) : missingInputs path inputs = [] := by
  unfold missingInputs
  rw [List.filter_eq_nil_iff]
  intro a ha
  have h2 := of_decide_eq_true ((List.mem_filter.mp ha).2)
  simp
  exact h2

/-- Evaluating `Pipeline.make` when the topological sort succeeds: the
disconnected-input test is vacuous, so construction returns the pipeline. -/
lemma make_of_topsort (env : GraphEnv) (ins outs : List Node) (nm : String)
    (ver : Option String) (path : List Node)
    (ht : topsort env (idsOf outs) = .ok path) :
    Pipeline.make env ins outs nm ver none = .ok
      { inputs := ins
        outputs := outs
        path := path
        nodesTransformation := path.filter (fun n => n.role.isTransformation)
        nodesInput := path.filter (fun n => decide (n.role = .input))
        nodesKeras := path.filter (fun n => decide (n.role = .keras))
        nodesMetric := getMetricNodes env path
        name := nm
        version := ver
        storage := none } := by
  simp only [Pipeline.make, flattenListify, ht, missingInputs_nil]
  simp

lemma detachLoop_none_preserved (l : List Node) (tbl : Nat → Option (Option Arr))
    (s : PState) (i : Nat) (h : s.out i = none) :
    (detachLoop l tbl s).2.out i = none := by
  induction l generalizing tbl s with
  | nil => exact h
  | cons n rest ih =>
      rw [detachLoop]
      apply ih
      show upd s.out n.id none i = none
      by_cases hj : i = n.id
      · rw [hj, upd_same]
      · rw [upd_ne _ _ _ _ hj]; exact h

lemma detachLoop_out_none (l : List Node) (tbl : Nat → Option (Option Arr)) (s : PState)
    (i : Nat) (h : i ∈ idsOf l) : (detachLoop l tbl s).2.out i = none := by
  induction l generalizing tbl s with
  | nil => simp [idsOf] at h
  | cons n rest ih =>
      by_cases hi : i = n.id
      · rw [detachLoop]
        apply detachLoop_none_preserved
        rw [hi]
        show upd s.out n.id none n.id = none
        exact upd_same _ _ _
      · have hrest : i ∈ idsOf rest := by
          simp [idsOf] at h ⊢
          rcases h with h | h
          · exact absurd h hi
          · exact h
        rw [detachLoop]
        exact ih _ _ hrest

/-- C4: `save()` followed by `load_pipeline()` yields a pipeline whose
`transform()` on any fixed input equals the original's `transform()` on
that input, from any starting pass state — learned state travels inside
the pickled node records, the path is restored verbatim, and `transform`
results depend only on the graph and the input — while the artifact's
per-node `output` attributes are all `None` (no data tensors stored).
The hypotheses say that `p` is a well-formed constructed pipeline: its
transformation split is the transformation filter of its path, its stored
path re-topsorts to itself (topsort is deterministic, so a constructed
path is such a fixpoint), the sweep reads only loaded inputs and earlier
sweep nodes, and every declared output is written during the pass. -/
theorem save_load_transform_roundtrip (p : Pipeline) (s : PState)
    (hsplit : p.nodesTransformation = p.path.filter (fun n => n.role.isTransformation))
    (hfix : topsort ⟨p.path⟩ (idsOf p.outputs) = .ok p.path)
    (hclosed : sweepClosedB (idsOf p.inputs) p.nodesTransformation = true)
    (hcov : outputsCoveredB p.outputs (idsOf p.inputs ++ idsOf p.nodesTransformation) = true) :
    ∃ q, load_pipeline (p.save s).1 none = .ok q ∧
      (∀ s' d idx kd, q.transform s' d idx kd = p.transform s d idx kd) ∧
      ∀ o ∈ (p.save s).1.pathOutputs, o = none := by
  have hmk := make_of_topsort ⟨p.path⟩ p.inputs p.outputs p.name p.version p.path hfix
  have e1 : (p.save s).1.path = p.path := rfl
  have e2 : (p.save s).1.inputs = p.inputs := rfl
  have e3 : (p.save s).1.outputs = p.outputs := rfl
  have e4 : (p.save s).1.name = p.name := rfl
  have e5 : (p.save s).1.version = p.version := rfl
  refine ⟨{ inputs := p.inputs
            outputs := p.outputs
            path := p.path
            nodesTransformation := p.path.filter (fun n => n.role.isTransformation)
            nodesInput := p.path.filter (fun n => decide (n.role = .input))
            nodesKeras := p.path.filter (fun n => decide (n.role = .keras))
            nodesMetric := getMetricNodes ⟨p.path⟩ p.path
            name := p.name
            version := p.version
            storage := none }, ?_, ?_, ?_⟩
  · unfold load_pipeline
    rw [e1, e2, e3, e4, e5, hmk]
  · intro s' d idx kd
    have hc := transform_fields_congr p
      { inputs := p.inputs
        outputs := p.outputs
        path := p.path
        nodesTransformation := p.path.filter (fun n => n.role.isTransformation)
        nodesInput := p.path.filter (fun n => decide (n.role = .input))
        nodesKeras := p.path.filter (fun n => decide (n.role = .keras))
        nodesMetric := getMetricNodes ⟨p.path⟩ p.path
        name := p.name
        version := p.version
        storage := none }
      rfl hsplit.symm rfl rfl s' d idx kd
    rw [hc]
    exact transform_state_indep p hclosed hcov s' s d idx kd
  · intro o ho
    have hpo : (p.save s).1.pathOutputs =
        p.path.map (fun n => (detachLoop p.path (fun _ => none) s).2.out n.id) := rfl
    rw [hpo] at ho
    obtain ⟨n, hn, rfl⟩ := List.mem_map.mp ho
    exact detachLoop_out_none p.path _ s n.id (List.mem_map.mpr ⟨n, hn, rfl⟩)

example : pS.transform PState.blank dX none false =
    .ok (.list [some ⟨[3], [3, 6, 9]⟩], dX) := by decide

theorem save_load_transform_roundtrip_witness :
    ∃ q, load_pipeline (pS.save sA).1 none = .ok q ∧
      (∀ s' d idx kd, q.transform s' d idx kd = pS.transform sA d idx kd) ∧
      ∀ o ∈ (pS.save sA).1.pathOutputs, o = none :=
  save_load_transform_roundtrip pS sA (by decide) (by decide) (by decide) (by decide)

end Megatron
